import Mathlib

/-!
Shallow embedding of the brainfuck interpreter in src/main.rs.

Modelling conventions:
* u8 cells are Nat values kept below 256; wrapping_add / wrapping_sub become
  explicit arithmetic modulo 256.
* usize values are Nat; the two places where the source performs unguarded
  usize arithmetic on the instruction pointer (the loop-end redirect
  "pointer - 1" and the post-step "pointer += 1") are modelled with explicit
  wrapping modulo 2^64, matching release-profile two's-complement semantics.
  Guarded arithmetic on mem_pointer cannot over/underflow and is plain Nat.
* stdin is made explicit as a list of pending input bytes in the state;
  stdout as a list of emitted bytes. The Vec jump stack grows at the list
  head (the head is the most recently pushed position).
* The while loop of State::run_program is given explicit fuel; out of fuel
  is Option.none, a terminated run is Option.some of the final state paired
  with Ok (none) or the InterpreterError produced.
-/

/-- brainfuck spec defines a 30000 byte memory (const MEMSIZE in main.rs). -/
def MEMSIZE : Nat := 30000

/-- Modulus of usize arithmetic on the 64-bit target. -/
def U64 : Nat := 2 ^ 64

/-- Enumeration defining Instructions in BF (enum Instruction in main.rs). -/
inductive Instruction where
  | IncPoint
  | DecPoint
  | IncValue
  | DecValue
  | LoopBegin
  | LoopEnd
  | GetChar
  | PutChar
  | Comment
  deriving DecidableEq

/-- The error type of the interpreter (enum InterpreterError in main.rs). -/
inductive InterpreterError where
  | UnmatchedBeginLoop (positions : List Nat)
  | UnmatchedEndLoop (position : Nat)
  | MemPointerBelowBounds
  | MemPointerAboveBounds
  | NoInput
  deriving DecidableEq

/-- map ASCII to BF instructions (Instruction::new in main.rs). -/
def Instruction.new (instruction : Nat) : Instruction :=
  match instruction with
  | 62 => .IncPoint
  | 60 => .DecPoint
  | 43 => .IncValue
  | 45 => .DecValue
  | 91 => .LoopBegin
  | 93 => .LoopEnd
  | 44 => .GetChar
  | 46 => .PutChar
  | _ => .Comment

/-- struct Instructions in main.rs: the decoded program, the instruction
pointer, and the jump stack (most recently pushed position at the head). -/
structure Instructions where
  instructions : List Instruction
  pointer : Nat
  jump_stack : List Nat
  deriving DecidableEq

/-- Instructions::new in main.rs. -/
def Instructions.new (instructions : List Instruction) : Instructions :=
  { instructions := instructions, pointer := 0, jump_stack := [] }

/-- struct State in main.rs, extended with the explicit stdin/stdout streams
that the Rust code reaches through std::io. -/
structure State where
  instructions : Instructions
  memory : List Nat
  mem_pointer : Nat
  input : List Nat
  output : List Nat
  deriving DecidableEq

/-- State::initialize in main.rs (zeroed tape, data pointer 0), with the
pending input stream passed in explicitly. -/
def State.initState (instructions : Instructions) (input : List Nat) : State :=
  { instructions := instructions
    memory := List.replicate MEMSIZE 0
    mem_pointer := 0
    input := input
    output := [] }

/-- The instruction at the current instruction pointer,
self.instructions.instructions[self.instructions.pointer] in main.rs.
run_program only steps while the pointer is in bounds, so the Comment
default of getD is never selected during a run. -/
def instrAt (s : State) : Instruction :=
  s.instructions.instructions.getD s.instructions.pointer Instruction.Comment

/-- The cell at the data pointer, self.memory[self.mem_pointer] in main.rs. -/
def cellAt (s : State) : Nat :=
  s.memory.getD s.mem_pointer 0

/-- The shared epilogue of State::update_state: the final
"self.instructions.pointer += 1" followed by Ok(()). -/
def finish_step (s : State) : State × Option InterpreterError :=
  ({ s with instructions := { s.instructions with
      pointer := (s.instructions.pointer + 1) % U64 } }, none)

/-- State::update_state in main.rs: interpret the current instruction.
The returned state is the (possibly mutated) self; the Option is none for
Ok(()) and some e for Err(e). -/
def update_state (s : State) : State × Option InterpreterError :=
  match instrAt s with
  | .IncPoint =>
      if s.mem_pointer < MEMSIZE - 1 then
        finish_step { s with mem_pointer := s.mem_pointer + 1 }
      else
        (s, some .MemPointerAboveBounds)
  | .DecPoint =>
      if 0 < s.mem_pointer then
        finish_step { s with mem_pointer := s.mem_pointer - 1 }
      else
        (s, some .MemPointerBelowBounds)
  | .IncValue =>
      finish_step { s with memory := s.memory.set s.mem_pointer ((cellAt s + 1) % 256) }
  | .DecValue =>
      finish_step { s with memory := s.memory.set s.mem_pointer ((cellAt s + 255) % 256) }
  | .LoopBegin =>
      finish_step { s with instructions := { s.instructions with
        jump_stack := s.instructions.pointer :: s.instructions.jump_stack } }
  | .LoopEnd =>
      match s.instructions.jump_stack with
      | [] => (s, some (.UnmatchedEndLoop s.instructions.pointer))
      | p :: rest =>
          if cellAt s ≠ 0 then
            finish_step { s with instructions := { s.instructions with
              pointer := (p + (U64 - 1)) % U64,
              jump_stack := rest } }
          else
            finish_step { s with instructions := { s.instructions with
              jump_stack := rest } }
  | .GetChar =>
      match s.input with
      | [] => (s, some .NoInput)
      | v :: rest =>
          finish_step { s with
            memory := s.memory.set s.mem_pointer (v % 256),
            input := rest }
  | .PutChar =>
      finish_step { s with output := s.output ++ [cellAt s] }
  | .Comment =>
      finish_step s

/-- State::run_program in main.rs: update state until the instruction
pointer passes the end of the sequence, then report UnmatchedBeginLoop if
the jump stack is non-empty. Fuel makes the while loop structurally
recursive; none means the fuel ran out before the run terminated. -/
def run_program (fuel : Nat) (s : State) :
    Option (State × Option InterpreterError) :=
  if s.instructions.pointer < s.instructions.instructions.length then
    match fuel with
    | 0 => none
    | f + 1 =>
        match update_state s with
        | (s', none) => run_program f s'
        | (s', some e) => some (s', some e)
  else
    if s.instructions.jump_stack.isEmpty then
      some (s, none)
    else
      some (s, some (.UnmatchedBeginLoop s.instructions.jump_stack))

/-- read instructions from file (get_instructions in main.rs), with the raw
file bytes passed in explicitly. -/
def get_instructions (input : List Nat) : Instructions :=
  Instructions.new (input.map Instruction.new)

/-- run_program instrumented with a ghost counter: the Nat result counts how
many of the executed steps interpreted a DecValue instruction. The state
transitions are exactly those of run_program (see run_count_fst below). -/
def run_count (fuel : Nat) (s : State) (k : Nat) :
    Option ((State × Option InterpreterError) × Nat) :=
  if s.instructions.pointer < s.instructions.instructions.length then
    match fuel with
    | 0 => none
    | f + 1 =>
        let k' := if instrAt s = Instruction.DecValue then k + 1 else k
        match update_state s with
        | (s', none) => run_count f s' k'
        | (s', some e) => some ((s', some e), k')
  else
    if s.instructions.jump_stack.isEmpty then
      some ((s, none), k)
    else
      some ((s, some (.UnmatchedBeginLoop s.instructions.jump_stack)), k)

/-- Observer for the claim that the loop-end redirect never computes
"popped position - 1" with popped = 0: true exactly when the current
instruction is a LoopEnd whose pop will succeed with popped position 0 and
the cell test will take the redirect branch, i.e. when the usize
subtraction "pointer - 1" in State::update_state underflows. -/
def loopEndRedirectUnderflows (s : State) : Bool :=
  match instrAt s with
  | .LoopEnd =>
      match s.instructions.jump_stack with
      | p :: _ => decide (cellAt s ≠ 0) && decide (p = 0)
      | [] => false
  | _ => false

example :
    Option.map Prod.snd
      (run_program 2 (State.initState (get_instructions [91]) [])) =
    some (some (.UnmatchedBeginLoop [0])) := by decide

example :
    Option.map Prod.snd
      (run_program 2 (State.initState (get_instructions [93]) [])) =
    some (some (.UnmatchedEndLoop 0)) := by decide

/-! ### Generic lemmas about the run loop -/

theorem run_program_stop {s : State}
    (h : ¬ s.instructions.pointer < s.instructions.instructions.length)
    (fuel : Nat) :
    run_program fuel s =
      some (s, if s.instructions.jump_stack.isEmpty then none
               else some (.UnmatchedBeginLoop s.instructions.jump_stack)) := by
  unfold run_program
  rw [if_neg h]
  split <;> simp_all

theorem run_program_step {s s' : State}
    (h : s.instructions.pointer < s.instructions.instructions.length)
    (hs : update_state s = (s', none)) (f : Nat) :
    run_program (f + 1) s = run_program f s' := by
  conv_lhs => unfold run_program
  rw [if_pos h, hs]

theorem run_program_step_err {s s' : State} {e : InterpreterError}
    (h : s.instructions.pointer < s.instructions.instructions.length)
    (hs : update_state s = (s', some e)) (f : Nat) :
    run_program (f + 1) s = some (s', some e) := by
  unfold run_program
  rw [if_pos h, hs]

theorem run_count_stop {s : State}
    (h : ¬ s.instructions.pointer < s.instructions.instructions.length)
    (fuel k : Nat) :
    run_count fuel s k =
      some ((s, if s.instructions.jump_stack.isEmpty then none
                else some (.UnmatchedBeginLoop s.instructions.jump_stack)), k) := by
  unfold run_count
  rw [if_neg h]
  split <;> simp_all

theorem run_count_step {s s' : State}
    (h : s.instructions.pointer < s.instructions.instructions.length)
    (hs : update_state s = (s', none)) (f k : Nat) :
    run_count (f + 1) s k =
      run_count f s' (if instrAt s = Instruction.DecValue then k + 1 else k) := by
  conv_lhs => unfold run_count
  rw [if_pos h, hs]

/-- The instrumented run performs exactly the transitions of run_program. -/
theorem run_count_fst (fuel : Nat) :
    ∀ s k, Option.map Prod.fst (run_count fuel s k) = run_program fuel s := by
  induction fuel with
  | zero =>
      intro s k
      unfold run_count run_program
      split
      · rfl
      · split <;> rfl
  | succ f ih =>
      intro s k
      unfold run_count run_program
      split
      · rcases hs : update_state s with ⟨s', e⟩
        cases e with
        | none => exact ih s' _
        | some e => rfl
      · split <;> rfl

/-- usize wraparound: subtracting 1 (with wrap) then adding 1 (with wrap)
returns to the starting value for any representable value. -/
theorem wrap_pred_succ {p : Nat} (hp : p < U64) :
    ((p + (U64 - 1)) % U64 + 1) % U64 = p := by
  unfold U64 at *
  omega

theorem mod_U64_eq {x : Nat} (hx : x < U64) : x % U64 = x :=
  Nat.mod_eq_of_lt hx

/-! ### Helpers about the tape representation -/

theorem cell_set_zero (c : Nat) :
    ((List.replicate MEMSIZE (0 : Nat)).set 0 c).getD 0 0 = c := by
  rw [show MEMSIZE = 29999 + 1 from rfl, List.replicate_succ]
  rfl

theorem replicate_set_zero :
    (List.replicate MEMSIZE (0 : Nat)).set 0 0 = List.replicate MEMSIZE 0 := by
  rw [show MEMSIZE = 29999 + 1 from rfl, List.replicate_succ]
  rfl

theorem getD_replicate {α : Type} {n j : Nat} (a d : α) (h : j < n) :
    (List.replicate n a).getD j d = a := by
  rw [List.getD_eq_getElem _ _ (by simpa using h), List.getElem_replicate]

/-! ### Characterization of single steps, one lemma per source match arm -/

theorem step_IncPoint_ok {s : State} (h : instrAt s = .IncPoint)
    (hm : s.mem_pointer < MEMSIZE - 1) :
    update_state s =
      ({ s with mem_pointer := s.mem_pointer + 1, instructions := { s.instructions with pointer := (s.instructions.pointer + 1) % U64 } }, none) := by
  obtain ⟨⟨ins, ptr, js⟩, m, mp, inp, out⟩ := s
  simp only [update_state, h]
  rw [if_pos hm]
  rfl

theorem step_IncPoint_err {s : State} (h : instrAt s = .IncPoint)
    (hm : ¬ s.mem_pointer < MEMSIZE - 1) :
    update_state s = (s, some .MemPointerAboveBounds) := by
  obtain ⟨⟨ins, ptr, js⟩, m, mp, inp, out⟩ := s
  simp only [update_state, h]
  rw [if_neg hm]

theorem step_DecPoint_ok {s : State} (h : instrAt s = .DecPoint)
    (hm : 0 < s.mem_pointer) :
    update_state s =
      ({ s with mem_pointer := s.mem_pointer - 1, instructions := { s.instructions with pointer := (s.instructions.pointer + 1) % U64 } }, none) := by
  obtain ⟨⟨ins, ptr, js⟩, m, mp, inp, out⟩ := s
  simp only [update_state, h]
  rw [if_pos hm]
  rfl

theorem step_DecPoint_err {s : State} (h : instrAt s = .DecPoint)
    (hm : ¬ 0 < s.mem_pointer) :
    update_state s = (s, some .MemPointerBelowBounds) := by
  obtain ⟨⟨ins, ptr, js⟩, m, mp, inp, out⟩ := s
  simp only [update_state, h]
  rw [if_neg hm]

theorem step_IncValue {s : State} (h : instrAt s = .IncValue) :
    update_state s =
      ({ s with memory := s.memory.set s.mem_pointer ((cellAt s + 1) % 256), instructions := { s.instructions with pointer := (s.instructions.pointer + 1) % U64 } }, none) := by
  obtain ⟨⟨ins, ptr, js⟩, m, mp, inp, out⟩ := s
  simp only [update_state, h]
  rfl

theorem step_DecValue {s : State} (h : instrAt s = .DecValue) :
    update_state s =
      ({ s with memory := s.memory.set s.mem_pointer ((cellAt s + 255) % 256), instructions := { s.instructions with pointer := (s.instructions.pointer + 1) % U64 } }, none) := by
  obtain ⟨⟨ins, ptr, js⟩, m, mp, inp, out⟩ := s
  simp only [update_state, h]
  rfl

theorem step_LoopBegin {s : State} (h : instrAt s = .LoopBegin) :
    update_state s =
      ({ s with instructions := { s.instructions with pointer := (s.instructions.pointer + 1) % U64, jump_stack := s.instructions.pointer :: s.instructions.jump_stack } }, none) := by
  obtain ⟨⟨ins, ptr, js⟩, m, mp, inp, out⟩ := s
  simp only [update_state, h]
  rfl

theorem step_LoopEnd_empty {s : State} (h : instrAt s = .LoopEnd)
    (hj : s.instructions.jump_stack = []) :
    update_state s = (s, some (.UnmatchedEndLoop s.instructions.pointer)) := by
  obtain ⟨⟨ins, ptr, js⟩, m, mp, inp, out⟩ := s
  simp only at hj
  subst hj
  simp only [update_state, h]

theorem step_LoopEnd_nz {s : State} {p : Nat} {rest : List Nat}
    (h : instrAt s = .LoopEnd) (hj : s.instructions.jump_stack = p :: rest)
    (hc : cellAt s ≠ 0) (hp : p < U64) :
    update_state s =
      ({ s with instructions := { s.instructions with pointer := p, jump_stack := rest } }, none) := by
  obtain ⟨⟨ins, ptr, js⟩, m, mp, inp, out⟩ := s
  simp only at hj
  subst hj
  simp only [update_state, h]
  rw [if_pos hc]
  show (({ instructions := { instructions := ins, pointer := ((p + (U64 - 1)) % U64 + 1) % U64, jump_stack := rest }, memory := m, mem_pointer := mp, input := inp, output := out } : State), (none : Option InterpreterError)) = _
  rw [wrap_pred_succ hp]

theorem step_LoopEnd_z {s : State} {p : Nat} {rest : List Nat}
    (h : instrAt s = .LoopEnd) (hj : s.instructions.jump_stack = p :: rest)
    (hc : cellAt s = 0) :
    update_state s =
      ({ s with instructions := { s.instructions with pointer := (s.instructions.pointer + 1) % U64, jump_stack := rest } }, none) := by
  obtain ⟨⟨ins, ptr, js⟩, m, mp, inp, out⟩ := s
  simp only at hj
  subst hj
  simp only [update_state, h]
  rw [if_neg (not_not_intro hc)]
  rfl

theorem step_GetChar_ok {s : State} {v : Nat} {rest : List Nat}
    (h : instrAt s = .GetChar) (hi : s.input = v :: rest) :
    update_state s =
      ({ s with memory := s.memory.set s.mem_pointer (v % 256), input := rest, instructions := { s.instructions with pointer := (s.instructions.pointer + 1) % U64 } }, none) := by
  obtain ⟨⟨ins, ptr, js⟩, m, mp, inp, out⟩ := s
  simp only at hi
  subst hi
  simp only [update_state, h]
  rfl

theorem step_GetChar_err {s : State} (h : instrAt s = .GetChar)
    (hi : s.input = []) :
    update_state s = (s, some .NoInput) := by
  obtain ⟨⟨ins, ptr, js⟩, m, mp, inp, out⟩ := s
  simp only at hi
  subst hi
  simp only [update_state, h]

theorem step_Comment {s : State} (h : instrAt s = .Comment) :
    update_state s =
      ({ s with instructions := { s.instructions with pointer := (s.instructions.pointer + 1) % U64 } }, none) := by
  obtain ⟨⟨ins, ptr, js⟩, m, mp, inp, out⟩ := s
  simp only [update_state, h]
  rfl

/-! ### Error atomicity and the data-pointer invariant -/

theorem update_state_err_frozen {s s' : State} {e : InterpreterError}
    (h : update_state s = (s', some e)) : s' = s := by
  obtain ⟨⟨ins, ptr, js⟩, m, mp, inp, out⟩ := s
  unfold update_state at h
  repeat' split at h
  all_goals simp_all [finish_step]

theorem update_state_ok_bounds {s s' : State}
    (h : update_state s = (s', none))
    (hm : s.mem_pointer ≤ MEMSIZE - 1) (hl : s.memory.length = MEMSIZE) :
    s'.mem_pointer ≤ MEMSIZE - 1 ∧ s'.memory.length = MEMSIZE := by
  obtain ⟨⟨ins, ptr, js⟩, m, mp, inp, out⟩ := s
  unfold update_state at h
  repeat' split at h
  all_goals simp_all [finish_step]
  all_goals (subst h; simp_all [List.length_set])
  all_goals omega

/-- States reachable from the initial state of a decoded program by
successful steps of update_state. -/
inductive Reachable (instrs : Instructions) (input : List Nat) : State → Prop
  | start : Reachable instrs input (State.initState instrs input)
  | step {s s' : State} : Reachable instrs input s →
      update_state s = (s', none) → Reachable instrs input s'

theorem reachable_bounds {instrs : Instructions} {input : List Nat} {s : State}
    (h : Reachable instrs input s) :
    s.mem_pointer ≤ MEMSIZE - 1 ∧ s.memory.length = MEMSIZE := by
  induction h with
  | start => exact ⟨by simp [State.initState], by simp [State.initState]⟩
  | step _ hstep ih => exact update_state_ok_bounds hstep ih.1 ih.2

/-! ### Concrete programs used as inputs for the claims -/

/-- The initial state for the decoded program "[+]" with no input. -/
def brLoopInc : State := State.initState (get_instructions [91, 43, 93]) []

/-! ### Claim theorems -/

/-- C10: error atomicity of a single step — whenever update_state returns an
error of any kind, the entire execution state (tape, data pointer,
instruction pointer, jump stack — and the streams) is exactly as it was
before the call; in particular the instruction pointer is not advanced. -/
theorem C10_error_atomicity (s s' : State) (e : InterpreterError)
    (h : update_state s = (s', some e)) : s' = s :=
  update_state_err_frozen h

theorem C10_error_atomicity_witness :
    (update_state (State.initState (get_instructions [93]) [])).1 =
      State.initState (get_instructions [93]) [] :=
  C10_error_atomicity _ _ (.UnmatchedEndLoop 0) rfl

/-- C9: data-pointer bounds invariant — every successful step of
update_state preserves mem_pointer ≤ 29999 (and the tape length), so in
every reachable state the data pointer is a valid tape index and every
tape access of ValueIncrement, ValueDecrement, ReadByte, WriteByte and the
LoopEnd branch test is within bounds. -/
theorem C9_pointer_bounds_invariant :
    (∀ s s' : State, update_state s = (s', none) →
        s.mem_pointer ≤ MEMSIZE - 1 → s.memory.length = MEMSIZE →
        s'.mem_pointer ≤ MEMSIZE - 1 ∧ s'.memory.length = MEMSIZE) ∧
    (∀ (instrs : Instructions) (input : List Nat) (s : State),
        Reachable instrs input s →
        s.mem_pointer ≤ 29999 ∧ s.mem_pointer < s.memory.length) := by
  constructor
  · intro s s' h hm hl
    exact update_state_ok_bounds h hm hl
  · intro instrs input s h
    obtain ⟨h1, h2⟩ := reachable_bounds h
    unfold MEMSIZE at h1 h2
    exact ⟨by omega, by omega⟩

theorem C9_pointer_bounds_invariant_witness :
    (State.initState (get_instructions [46]) []).mem_pointer ≤ 29999 ∧
    (State.initState (get_instructions [46]) []).mem_pointer <
      (State.initState (get_instructions [46]) []).memory.length :=
  C9_pointer_bounds_invariant.2 (get_instructions [46]) [] _ Reachable.start

/-- C7: the decoder is a pure total function mapping the eight ASCII
command bytes to their instructions and every other byte to Comment, and
get_instructions applies it to each input byte independently in input
order. -/
theorem C7_decoder_total :
    (Instruction.new 62 = .IncPoint ∧ Instruction.new 60 = .DecPoint ∧
     Instruction.new 43 = .IncValue ∧ Instruction.new 45 = .DecValue ∧
     Instruction.new 91 = .LoopBegin ∧ Instruction.new 93 = .LoopEnd ∧
     Instruction.new 44 = .GetChar ∧ Instruction.new 46 = .PutChar) ∧
    (∀ b : Nat, b ∉ ([62, 60, 43, 45, 91, 93, 44, 46] : List Nat) →
        Instruction.new b = .Comment) ∧
    (∀ input : List Nat,
        (get_instructions input).instructions = input.map Instruction.new ∧
        (get_instructions input).pointer = 0 ∧
        (get_instructions input).jump_stack = []) := by
  refine ⟨⟨rfl, rfl, rfl, rfl, rfl, rfl, rfl, rfl⟩, ?_, ?_⟩
  · intro b hb
    simp only [List.mem_cons, List.not_mem_nil, or_false, not_or] at hb
    unfold Instruction.new
    split <;> simp_all
  · intro input
    exact ⟨rfl, rfl, rfl⟩

theorem C7_decoder_total_witness : Instruction.new 35 = .Comment :=
  C7_decoder_total.2.1 35 (by decide)

/-- C8: ReadByte consumes exactly one byte of the input stream and stores
it in the cell at the data pointer, leaving everything else unchanged
except the advanced instruction pointer; on an exhausted input stream it
fails with NoInput and the whole state is unchanged. -/
theorem C8_ReadByte :
    (∀ (s : State) (v : Nat) (rest : List Nat),
        instrAt s = .GetChar → s.input = v :: rest → v < 256 →
        update_state s =
          ({ s with memory := s.memory.set s.mem_pointer v, input := rest, instructions := { s.instructions with pointer := (s.instructions.pointer + 1) % U64 } }, none)) ∧
    (∀ s : State, instrAt s = .GetChar → s.input = [] →
        update_state s = (s, some .NoInput)) := by
  constructor
  · intro s v rest h hi hv
    have hs := step_GetChar_ok h hi
    rwa [Nat.mod_eq_of_lt hv] at hs
  · intro s h hi
    exact step_GetChar_err h hi

theorem C8_ReadByte_witness :
    update_state (State.initState (get_instructions [44]) []) =
      (State.initState (get_instructions [44]) [], some .NoInput) :=
  C8_ReadByte.2 (State.initState (get_instructions [44]) []) rfl rfl

/-- C1 (amended): when the current instruction is LoopEnd, the jump stack
is non-empty and the cell at the data pointer is non-zero, the step sets
the instruction pointer (after the post-step advance) to the popped
LoopBegin position itself — the LoopBegin is re-executed and re-pushes —
and when the cell is zero the instruction pointer advances normally past
the LoopEnd. -/
theorem C1_loop_end_step (s : State) (p : Nat) (rest : List Nat)
    (h : instrAt s = .LoopEnd) (hj : s.instructions.jump_stack = p :: rest)
    (hp : p < U64) :
    (cellAt s ≠ 0 →
        update_state s = ({ s with instructions := { s.instructions with pointer := p, jump_stack := rest } }, none)) ∧
    (cellAt s = 0 →
        update_state s = ({ s with instructions := { s.instructions with pointer := (s.instructions.pointer + 1) % U64, jump_stack := rest } }, none)) :=
  ⟨fun hc => step_LoopEnd_nz h hj hc hp, fun hc => step_LoopEnd_z h hj hc⟩

theorem C1_loop_end_step_witness :
    cellAt ((update_state (update_state brLoopInc).1).1) ≠ 0 ∧
    update_state ((update_state (update_state brLoopInc).1).1) =
      ({ (update_state (update_state brLoopInc).1).1 with instructions := { ((update_state (update_state brLoopInc).1).1).instructions with pointer := 0, jump_stack := [] } }, none) :=
  ⟨by decide,
   (C1_loop_end_step ((update_state (update_state brLoopInc).1).1) 0 []
      (by decide) (by decide) (by decide)).1 (by decide)⟩

/-- C1 counterexample: in the run of the program "[+]", the third step
executes the LoopEnd with popped LoopBegin position 0 and cell value 1,
and after the step the instruction pointer is 0 — the popped position
itself, not 0 + 1 = one past it as the claim states. -/
theorem C1_counterexample :
    instrAt ((update_state (update_state brLoopInc).1).1) = .LoopEnd ∧
    ((update_state (update_state brLoopInc).1).1).instructions.jump_stack = [0] ∧
    cellAt ((update_state (update_state brLoopInc).1).1) = 1 ∧
    (update_state ((update_state (update_state brLoopInc).1).1)).1.instructions.pointer = 0 ∧
    (0 : Nat) ≠ 0 + 1 := by
  decide

/-- C2 counterexample: the run of the program "[+]" reaches a state (after
two steps) in which the loop-end redirect pops position 0 with a non-zero
cell, so the usize computation "popped position - 1" underflows. -/
theorem C2_counterexample :
    loopEndRedirectUnderflows ((update_state (update_state brLoopInc).1).1) = true := by
  decide


/-! ### Symbolic execution of the program "[+]" -/

/-- Intermediate states of the run of "[+]": cell 0 holds c, the
instruction pointer is ip, the jump stack is js. -/
def loopIncSt (c ip : Nat) (js : List Nat) : State :=
  { instructions := { instructions := [.LoopBegin, .IncValue, .LoopEnd], pointer := ip, jump_stack := js }, memory := (List.replicate MEMSIZE 0).set 0 c, mem_pointer := 0, input := [], output := [] }

theorem loopInc_step1 (c : Nat) :
    update_state (loopIncSt c 0 []) = (loopIncSt c 1 [0], none) := by
  rw [@step_LoopBegin (loopIncSt c 0 []) rfl]
  simp [loopIncSt, U64]

theorem loopInc_step2 (c : Nat) :
    update_state (loopIncSt c 1 [0]) = (loopIncSt ((c + 1) % 256) 2 [0], none) := by
  rw [@step_IncValue (loopIncSt c 1 [0]) rfl]
  rw [show cellAt (loopIncSt c 1 [0]) = c from cell_set_zero c]
  simp [loopIncSt, U64, List.set_set]

theorem loopInc_step3_nz (c : Nat) (hc : c ≠ 0) :
    update_state (loopIncSt c 2 [0]) = (loopIncSt c 0 [], none) := by
  rw [@step_LoopEnd_nz (loopIncSt c 2 [0]) 0 [] rfl rfl
        (by rw [show cellAt (loopIncSt c 2 [0]) = c from cell_set_zero c]; exact hc)
        (by unfold U64; omega)]
  simp [loopIncSt]

theorem loopInc_step3_z :
    update_state (loopIncSt 0 2 [0]) = (loopIncSt 0 3 [], none) := by
  rw [@step_LoopEnd_z (loopIncSt 0 2 [0]) 0 [] rfl rfl (cell_set_zero 0)]
  simp [loopIncSt, U64]

theorem loopInc_run : ∀ k c, c + k = 256 → 1 ≤ k →
    run_program (3 * k) (loopIncSt c 0 []) = some (loopIncSt 0 3 [], none) := by
  intro k
  induction k with
  | zero => omega
  | succ k ih =>
      intro c hc _
      have e3 : 3 * (k + 1) = 3 * k + 1 + 1 + 1 := by ring
      rw [e3]
      rw [run_program_step (by simp [loopIncSt]) (loopInc_step1 c)]
      rw [run_program_step (by simp [loopIncSt]) (loopInc_step2 c)]
      rcases Nat.eq_or_lt_of_le (Nat.le_of_lt_succ (by omega : c < 256)) with hlast | hmid
      · -- c = 255: the increment wraps to 0 and the loop exits
        subst hlast
        norm_num
        rw [run_program_step (by simp [loopIncSt]) loopInc_step3_z]
        rw [run_program_stop (by simp [loopIncSt])]
        rfl
      · -- c + 1 < 256: one more full iteration remains
        have hmod : (c + 1) % 256 = c + 1 := Nat.mod_eq_of_lt (by omega)
        rw [hmod]
        rw [run_program_step (by simp [loopIncSt]) (loopInc_step3_nz (c + 1) (by omega))]
        exact ih (c + 1) (by omega) (by omega)

theorem brLoopInc_eq : brLoopInc = loopIncSt 0 0 [] := by
  unfold brLoopInc loopIncSt State.initState get_instructions Instructions.new
  rw [replicate_set_zero]
  rfl

/-- C2 (amended): each step is total and never aborts. The loop-end
redirect's usize subtraction can underflow (exactly when the popped
LoopBegin position is 0 and the cell is non-zero, see the counterexample),
but under the wrapping usize semantics the post-step advance wraps back,
so such a step completes successfully with the instruction pointer at
position 0; the program "[+]", which exercises this case, runs to
successful completion, and every terminating run returns Ok or one of the
InterpreterError variants. -/
theorem C2_no_abort :
    (∀ (s : State) (rest : List Nat),
        instrAt s = .LoopEnd → s.instructions.jump_stack = 0 :: rest →
        cellAt s ≠ 0 →
        (update_state s).2 = none ∧
        (update_state s).1.instructions.pointer = 0) ∧
    Option.map Prod.snd (run_program 768 brLoopInc) = some none := by
  constructor
  · intro s rest h hj hc
    rw [step_LoopEnd_nz h hj hc (by unfold U64; omega)]
    exact ⟨rfl, rfl⟩
  · rw [brLoopInc_eq, show (768 : Nat) = 3 * 256 from rfl,
        loopInc_run 256 0 rfl (by omega)]
    rfl

theorem C2_no_abort_witness :
    (update_state ((update_state (update_state brLoopInc).1).1)).2 = none ∧
    (update_state ((update_state (update_state brLoopInc).1).1)).1.instructions.pointer = 0 :=
  C2_no_abort.1 _ [] (by decide) (by decide) (by decide)

/-- C3: a lone LoopBegin yields UnmatchedBeginLoop carrying exactly the
position list [0]; a lone LoopEnd yields UnmatchedEndLoop carrying
position 0; and in general a run that reaches the end of the sequence
succeeds if and only if the jump stack is empty, and otherwise fails with
UnmatchedBeginLoop carrying the jump stack — all still-open LoopBegin
positions. -/
theorem C3_end_of_program :
    Option.map Prod.snd (run_program 2 (State.initState (get_instructions [91]) [])) =
      some (some (.UnmatchedBeginLoop [0])) ∧
    Option.map Prod.snd (run_program 2 (State.initState (get_instructions [93]) [])) =
      some (some (.UnmatchedEndLoop 0)) ∧
    (∀ (fuel : Nat) (s : State),
        ¬ s.instructions.pointer < s.instructions.instructions.length →
        ((run_program fuel s = some (s, none) ↔ s.instructions.jump_stack = []) ∧
         (s.instructions.jump_stack ≠ [] →
           run_program fuel s =
             some (s, some (.UnmatchedBeginLoop s.instructions.jump_stack))))) := by
  refine ⟨by decide, by decide, ?_⟩
  intro fuel s h
  rw [run_program_stop h fuel]
  by_cases hj : s.instructions.jump_stack = []
  · rw [if_pos (by simp [hj])]
    exact ⟨⟨fun _ => hj, fun _ => rfl⟩, fun hne => absurd hj hne⟩
  · rw [if_neg (by simpa using hj)]
    exact ⟨⟨fun hcontra => absurd hcontra (by simp), fun hcontra => absurd hcontra hj⟩,
           fun _ => rfl⟩

theorem C3_end_of_program_witness :
    ((run_program 5 (State.initState (get_instructions []) []) =
        some (State.initState (get_instructions []) [], none) ↔
      (State.initState (get_instructions []) []).instructions.jump_stack = []) ∧
     ((State.initState (get_instructions []) []).instructions.jump_stack ≠ [] →
       run_program 5 (State.initState (get_instructions []) []) =
         some (State.initState (get_instructions []) [],
           some (.UnmatchedBeginLoop
             (State.initState (get_instructions []) []).instructions.jump_stack)))) :=
  C3_end_of_program.2.2 5 (State.initState (get_instructions []) []) (by decide)

/-! ### Symbolic execution of runs of PointerIncrement instructions -/

/-- States of a program of n PointerIncrement instructions after j steps:
instruction pointer and data pointer both equal j, tape untouched. -/
def incPointSt (n j : Nat) : State :=
  { instructions := { instructions := List.replicate n Instruction.IncPoint, pointer := j, jump_stack := [] }, memory := List.replicate MEMSIZE 0, mem_pointer := j, input := [], output := [] }

theorem incPointSt_instr {n j : Nat} (hj : j < n) :
    instrAt (incPointSt n j) = .IncPoint := by
  simp only [instrAt, incPointSt]
  exact getD_replicate _ _ hj

theorem incPoint_step {n j : Nat} (hj : j < n) (hm : j < MEMSIZE - 1)
    (hn : j + 1 < U64) :
    update_state (incPointSt n j) = (incPointSt n (j + 1), none) := by
  rw [@step_IncPoint_ok (incPointSt n j) (incPointSt_instr hj)
        (by simpa [incPointSt] using hm)]
  simp [incPointSt, Nat.mod_eq_of_lt hn]

theorem incPoint_walk {n : Nat} (hn2 : n < U64) :
    ∀ k j, j + k ≤ n → j + k ≤ MEMSIZE - 1 → ∀ f,
      run_program (k + f) (incPointSt n j) = run_program f (incPointSt n (j + k)) := by
  intro k
  induction k with
  | zero =>
      intro j _ _ f
      norm_num
  | succ k ih =>
      intro j hjk hjm f
      have hlt : (incPointSt n j).instructions.pointer <
          (incPointSt n j).instructions.instructions.length := by
        simp only [incPointSt, List.length_replicate]
        omega
      rw [show k + 1 + f = (k + f) + 1 from by omega,
          run_program_step hlt (incPoint_step (by omega) (by unfold MEMSIZE at *; omega) (by unfold U64 at *; omega))]
      rw [ih (j + 1) (by omega) (by omega) f, show j + 1 + k = j + (k + 1) from by omega]

theorem initState_incPoint (n : Nat) :
    State.initState (get_instructions (List.replicate n 62)) [] = incPointSt n 0 := by
  unfold State.initState get_instructions Instructions.new incPointSt
  rw [List.map_replicate]
  rfl

/-- C4: pointer arithmetic is bounds-checked and fails without mutation: a
PointerDecrement at data pointer 0 fails with the below-bounds variant
leaving the whole state unchanged; 29999 PointerIncrement instructions
from a fresh state succeed and land the data pointer at index 29999; one
further PointerIncrement fails with the above-bounds variant. -/
theorem C4_pointer_bounds :
    (∀ s : State, instrAt s = .DecPoint → s.mem_pointer = 0 →
        update_state s = (s, some .MemPointerBelowBounds)) ∧
    (run_program 30000 (State.initState (get_instructions (List.replicate 29999 62)) []) =
        some (incPointSt 29999 29999, none) ∧
      (incPointSt 29999 29999).mem_pointer = 29999) ∧
    (run_program 30001 (State.initState (get_instructions (List.replicate 30000 62)) []) =
        some (incPointSt 30000 29999, some .MemPointerAboveBounds) ∧
      (incPointSt 30000 29999).mem_pointer = 29999) := by
  refine ⟨?_, ⟨?_, rfl⟩, ⟨?_, rfl⟩⟩
  · intro s h hm
    exact step_DecPoint_err h (by omega)
  · rw [initState_incPoint 29999,
        show (30000 : Nat) = 29999 + 1 from rfl,
        incPoint_walk (by unfold U64; norm_num) 29999 0 (by omega) (by unfold MEMSIZE; omega) 1]
    rw [run_program_stop (by simp only [incPointSt, List.length_replicate]; omega) 1]
    rfl
  · rw [initState_incPoint 30000,
        show (30001 : Nat) = 29999 + 2 from rfl,
        incPoint_walk (by unfold U64; norm_num) 29999 0 (by omega) (by unfold MEMSIZE; omega) 2]
    have hlt : (incPointSt 30000 (0 + 29999)).instructions.pointer <
        (incPointSt 30000 (0 + 29999)).instructions.instructions.length := by
      simp only [incPointSt, List.length_replicate]
      omega
    rw [show (2 : Nat) = 1 + 1 from rfl,
        run_program_step_err hlt
          (step_IncPoint_err (incPointSt_instr (by omega))
            (by simp only [incPointSt]; unfold MEMSIZE; omega)) 1]

theorem C4_pointer_bounds_witness :
    update_state (State.initState (get_instructions [60]) []) =
      (State.initState (get_instructions [60]) [], some .MemPointerBelowBounds) :=
  C4_pointer_bounds.1 (State.initState (get_instructions [60]) []) (by decide) (by decide)

/-! ### Symbolic execution of runs of ValueIncrement instructions -/

theorem getD_set_self {α : Type} (l : List α) (i : Nat) (v d : α)
    (h : i < l.length) : (l.set i v).getD i d = v := by
  rw [List.getD_eq_getElem _ _ (by simpa using h)]
  exact List.getElem_set_self _

/-- States of a program of n ValueIncrement instructions after j steps:
instruction pointer j, cell 0 holds j mod 256. -/
def incValueSt (n j : Nat) : State :=
  { instructions := { instructions := List.replicate n Instruction.IncValue, pointer := j, jump_stack := [] }, memory := (List.replicate MEMSIZE 0).set 0 (j % 256), mem_pointer := 0, input := [], output := [] }

theorem incValueSt_instr {n j : Nat} (hj : j < n) :
    instrAt (incValueSt n j) = .IncValue := by
  simp only [instrAt, incValueSt]
  exact getD_replicate _ _ hj

theorem incValue_step {n j : Nat} (hj : j < n) (hn : j + 1 < U64) :
    update_state (incValueSt n j) = (incValueSt n (j + 1), none) := by
  rw [@step_IncValue (incValueSt n j) (incValueSt_instr hj)]
  rw [show cellAt (incValueSt n j) = j % 256 from cell_set_zero _]
  simp [incValueSt, Nat.mod_eq_of_lt hn, List.set_set, Nat.mod_add_mod]

theorem incValue_walk {n : Nat} (hn : n < U64) :
    ∀ k j, j + k ≤ n → ∀ f,
      run_program (k + f) (incValueSt n j) = run_program f (incValueSt n (j + k)) := by
  intro k
  induction k with
  | zero =>
      intro j _ f
      norm_num
  | succ k ih =>
      intro j hjk f
      have hlt : (incValueSt n j).instructions.pointer <
          (incValueSt n j).instructions.instructions.length := by
        simp only [incValueSt, List.length_replicate]
        omega
      rw [show k + 1 + f = (k + f) + 1 from by omega,
          run_program_step hlt (incValue_step (by omega) (by unfold U64 at *; omega))]
      rw [ih (j + 1) (by omega) f, show j + 1 + k = j + (k + 1) from by omega]

theorem initState_incValue (n : Nat) :
    State.initState (get_instructions (List.replicate n 43)) [] = incValueSt n 0 := by
  unfold State.initState get_instructions Instructions.new incValueSt
  rw [List.map_replicate, show (0 : Nat) % 256 = 0 from rfl, replicate_set_zero]
  rfl

/-- C6: cell arithmetic wraps modulo 256 and never fails: a run of N
ValueIncrement instructions ends successfully with the cell holding
N mod 256 (so 256 increments return it to 0), ValueIncrement and
ValueDecrement steps never produce an error, and a ValueDecrement on a
cell holding 0 leaves the cell holding 255. -/
theorem C6_cell_wraparound :
    (∀ N : Nat, N < U64 →
        run_program (N + 1) (State.initState (get_instructions (List.replicate N 43)) []) =
          some (incValueSt N N, none) ∧
        cellAt (incValueSt N N) = N % 256) ∧
    (∀ s : State, instrAt s = .IncValue ∨ instrAt s = .DecValue →
        (update_state s).2 = none) ∧
    (∀ s : State, instrAt s = .DecValue → cellAt s = 0 →
        s.mem_pointer < s.memory.length →
        (update_state s).2 = none ∧ cellAt (update_state s).1 = 255) := by
  refine ⟨?_, ?_, ?_⟩
  · intro N hN
    constructor
    · rw [initState_incValue N, incValue_walk hN N 0 (by omega) 1]
      rw [run_program_stop (by simp only [incValueSt, List.length_replicate]; omega) 1]
      simp [incValueSt]
    · exact cell_set_zero _
  · intro s h
    rcases h with h | h
    · rw [step_IncValue h]
    · rw [step_DecValue h]
  · intro s h hc hlen
    rw [step_DecValue h]
    refine ⟨rfl, ?_⟩
    have hcell : cellAt (({ s with memory := s.memory.set s.mem_pointer ((cellAt s + 255) % 256), instructions := { s.instructions with pointer := (s.instructions.pointer + 1) % U64 } } : State)) = (cellAt s + 255) % 256 :=
      getD_set_self s.memory s.mem_pointer _ 0 hlen
    rw [hcell, hc]

theorem C6_cell_wraparound_witness :
    (run_program 257 (State.initState (get_instructions (List.replicate 256 43)) []) =
        some (incValueSt 256 256, none) ∧
      cellAt (incValueSt 256 256) = 256 % 256) ∧
    (update_state (State.initState (get_instructions [45]) [])).2 = none :=
  ⟨C6_cell_wraparound.1 256 (by unfold U64; norm_num),
   (C6_cell_wraparound.2.2 (State.initState (get_instructions [45]) [])
      (by decide) (by decide)
      (by simp only [State.initState, List.length_replicate]; unfold MEMSIZE; omega)).1⟩

/-! ### Symbolic execution of the clear loop: v ValueIncrements then "[-]" -/

/-- The decoded program of v ValueIncrement instructions followed by
LoopBegin, DecValue, LoopEnd (source "+"^v ++ "[-]"). -/
def clearLoopProg (v : Nat) : List Instruction :=
  List.replicate v Instruction.IncValue ++ [Instruction.LoopBegin, Instruction.DecValue, Instruction.LoopEnd]

/-- Intermediate states of the clear-loop run: instruction pointer ip,
cell 0 holds c, jump stack js. -/
def clearLoopSt (v ip c : Nat) (js : List Nat) : State :=
  { instructions := { instructions := clearLoopProg v, pointer := ip, jump_stack := js }, memory := (List.replicate MEMSIZE 0).set 0 c, mem_pointer := 0, input := [], output := [] }

theorem clearLoopProg_length (v : Nat) : (clearLoopProg v).length = v + 3 := by
  simp [clearLoopProg]

theorem clearLoopProg_get_lt {v j : Nat} (h : j < v) :
    (clearLoopProg v).getD j Instruction.Comment = .IncValue := by
  unfold clearLoopProg
  rw [List.getD_append _ _ _ _ (by simpa using h)]
  exact getD_replicate _ _ h

theorem clearLoopProg_get0 (v : Nat) :
    (clearLoopProg v).getD v Instruction.Comment = .LoopBegin := by
  unfold clearLoopProg
  rw [List.getD_append_right _ _ _ _ (by simp)]
  simp only [List.length_replicate]
  rw [show v - v = 0 from by omega]
  rfl

theorem clearLoopProg_get1 (v : Nat) :
    (clearLoopProg v).getD (v + 1) Instruction.Comment = .DecValue := by
  unfold clearLoopProg
  rw [List.getD_append_right _ _ _ _ (by simp)]
  simp only [List.length_replicate]
  rw [show v + 1 - v = 1 from by omega]
  rfl

theorem clearLoopProg_get2 (v : Nat) :
    (clearLoopProg v).getD (v + 2) Instruction.Comment = .LoopEnd := by
  unfold clearLoopProg
  rw [List.getD_append_right _ _ _ _ (by simp)]
  simp only [List.length_replicate]
  rw [show v + 2 - v = 2 from by omega]
  rfl

theorem run_count_step_not_dec {s s' : State}
    (hlt : s.instructions.pointer < s.instructions.instructions.length)
    (hs : update_state s = (s', none)) (hnd : instrAt s ≠ .DecValue) (f k : Nat) :
    run_count (f + 1) s k = run_count f s' k := by
  rw [run_count_step hlt hs f k, if_neg hnd]

theorem run_count_step_dec {s s' : State}
    (hlt : s.instructions.pointer < s.instructions.instructions.length)
    (hs : update_state s = (s', none)) (hd : instrAt s = .DecValue) (f k : Nat) :
    run_count (f + 1) s k = run_count f s' (k + 1) := by
  rw [run_count_step hlt hs f k, if_pos hd]

theorem clearLoopSt_lt {v ip c : Nat} {js : List Nat} (h : ip < v + 3) :
    (clearLoopSt v ip c js).instructions.pointer <
      (clearLoopSt v ip c js).instructions.instructions.length := by
  simp only [clearLoopSt, clearLoopProg_length]
  omega

theorem clearLoop_stepInc {v j : Nat} (hj : j < v) (hv : v + 3 < U64) :
    update_state (clearLoopSt v j (j % 256) []) =
      (clearLoopSt v (j + 1) ((j + 1) % 256) [], none) := by
  rw [@step_IncValue (clearLoopSt v j (j % 256) [])
        (by simp only [instrAt, clearLoopSt]; exact clearLoopProg_get_lt hj)]
  rw [show cellAt (clearLoopSt v j (j % 256) []) = j % 256 from cell_set_zero _]
  simp [clearLoopSt, List.set_set, Nat.mod_add_mod,
        Nat.mod_eq_of_lt (show j + 1 < U64 by omega)]

theorem clearLoop_stepA (v c : Nat) (js : List Nat) (hv : v + 3 < U64) :
    update_state (clearLoopSt v v c js) = (clearLoopSt v (v + 1) c (v :: js), none) := by
  rw [@step_LoopBegin (clearLoopSt v v c js)
        (by simp only [instrAt, clearLoopSt]; exact clearLoopProg_get0 v)]
  simp [clearLoopSt, Nat.mod_eq_of_lt (show v + 1 < U64 by omega)]

theorem clearLoop_stepB (v c : Nat) (js : List Nat) (hv : v + 3 < U64) :
    update_state (clearLoopSt v (v + 1) c js) =
      (clearLoopSt v (v + 2) ((c + 255) % 256) js, none) := by
  rw [@step_DecValue (clearLoopSt v (v + 1) c js)
        (by simp only [instrAt, clearLoopSt]; exact clearLoopProg_get1 v)]
  rw [show cellAt (clearLoopSt v (v + 1) c js) = c from cell_set_zero _]
  simp [clearLoopSt, List.set_set, Nat.mod_eq_of_lt (show v + 1 + 1 < U64 by omega)]

theorem clearLoop_stepC_nz (v c : Nat) (hv : v + 3 < U64) (hc : c ≠ 0) :
    update_state (clearLoopSt v (v + 2) c [v]) = (clearLoopSt v v c [], none) := by
  rw [@step_LoopEnd_nz (clearLoopSt v (v + 2) c [v]) v []
        (by simp only [instrAt, clearLoopSt]; exact clearLoopProg_get2 v)
        (by simp [clearLoopSt])
        (by rw [show cellAt (clearLoopSt v (v + 2) c [v]) = c from cell_set_zero _]; exact hc)
        (by unfold U64 at *; omega)]
  simp [clearLoopSt]

theorem clearLoop_stepC_z (v : Nat) (hv : v + 3 < U64) :
    update_state (clearLoopSt v (v + 2) 0 [v]) = (clearLoopSt v (v + 3) 0 [], none) := by
  rw [@step_LoopEnd_z (clearLoopSt v (v + 2) 0 [v]) v []
        (by simp only [instrAt, clearLoopSt]; exact clearLoopProg_get2 v)
        (by simp [clearLoopSt])
        (cell_set_zero 0)]
  simp [clearLoopSt, Nat.mod_eq_of_lt (show v + 2 + 1 < U64 by omega)]

theorem clearLoop_iter (v : Nat) (hv : v + 3 < U64) :
    ∀ d, 1 ≤ d → d ≤ 256 → ∀ kc,
      run_count (3 * d) (clearLoopSt v v (d % 256) []) kc =
        some ((clearLoopSt v (v + 3) 0 [], none), kc + d) := by
  intro d
  induction d with
  | zero => omega
  | succ d ih =>
      intro _ hd kc
      rw [show 3 * (d + 1) = 3 * d + 1 + 1 + 1 from by ring]
      rw [run_count_step_not_dec (clearLoopSt_lt (by omega))
            (clearLoop_stepA v ((d + 1) % 256) [] hv)
            (by simp only [instrAt, clearLoopSt]; rw [clearLoopProg_get0 v]; decide)]
      rw [run_count_step_dec (clearLoopSt_lt (by omega))
            (clearLoop_stepB v ((d + 1) % 256) [v] hv)
            (by simp only [instrAt, clearLoopSt]; exact clearLoopProg_get1 v)]
      rw [show ((d + 1) % 256 + 255) % 256 = d % 256 from by omega]
      rcases Nat.eq_zero_or_pos d with hd0 | hd1
      · subst hd0
        norm_num
        rw [run_count_step_not_dec (clearLoopSt_lt (by omega))
              (clearLoop_stepC_z v hv)
              (by simp only [instrAt, clearLoopSt]; rw [clearLoopProg_get2 v]; decide)]
        rw [run_count_stop (by simp only [clearLoopSt, clearLoopProg_length]; omega)]
        simp [clearLoopSt]
      · rw [run_count_step_not_dec (clearLoopSt_lt (by omega))
              (clearLoop_stepC_nz v (d % 256) hv (by omega))
              (by simp only [instrAt, clearLoopSt]; rw [clearLoopProg_get2 v]; decide)]
        rw [ih (by omega) (by omega) (kc + 1),
            show kc + 1 + d = kc + (d + 1) from by omega]

theorem clearLoop_walk (v : Nat) (hv : v + 3 < U64) :
    ∀ k j, j + k ≤ v → ∀ f kc,
      run_count (k + f) (clearLoopSt v j (j % 256) []) kc =
        run_count f (clearLoopSt v (j + k) ((j + k) % 256) []) kc := by
  intro k
  induction k with
  | zero =>
      intro j _ f kc
      norm_num
  | succ k ih =>
      intro j hjk f kc
      rw [show k + 1 + f = (k + f) + 1 from by omega]
      rw [run_count_step_not_dec (clearLoopSt_lt (by omega))
            (clearLoop_stepInc (by omega) hv)
            (by simp only [instrAt, clearLoopSt]; rw [clearLoopProg_get_lt (by omega : j < v)]; decide)]
      rw [ih (j + 1) (by omega) f kc, show j + 1 + k = j + (k + 1) from by omega]

theorem initState_clearLoop (v : Nat) :
    State.initState (get_instructions (List.replicate v 43 ++ [91, 45, 93])) [] =
      clearLoopSt v 0 0 [] := by
  unfold State.initState get_instructions Instructions.new clearLoopSt clearLoopProg
  rw [List.map_append, List.map_replicate, replicate_set_zero]
  rfl

/-- C5 (amended): for every v with 0 < v ≤ 256, running v ValueIncrement
instructions followed by the loop [-] halts successfully with the cell at
the data pointer equal to 0, and the ValueDecrement in the loop body
executes exactly v times (counted by the instrumented run). -/
theorem C5_clear_loop (v : Nat) (h1 : 1 ≤ v) (h2 : v ≤ 256) :
    run_count (v + 3 * v) (State.initState (get_instructions (List.replicate v 43 ++ [91, 45, 93])) []) 0 =
      some ((clearLoopSt v (v + 3) 0 [], none), v) ∧
    run_program (v + 3 * v) (State.initState (get_instructions (List.replicate v 43 ++ [91, 45, 93])) []) =
      some (clearLoopSt v (v + 3) 0 [], none) ∧
    cellAt (clearLoopSt v (v + 3) 0 []) = 0 := by
  have hv : v + 3 < U64 := by unfold U64; omega
  have hrc : run_count (v + 3 * v) (State.initState (get_instructions (List.replicate v 43 ++ [91, 45, 93])) []) 0 =
      some ((clearLoopSt v (v + 3) 0 [], none), v) := by
    rw [initState_clearLoop v,
        show clearLoopSt v 0 0 [] = clearLoopSt v 0 (0 % 256) [] from rfl,
        clearLoop_walk v hv v 0 (by omega) (3 * v) 0]
    rw [show (0 + v) = v from by omega]
    rw [clearLoop_iter v hv v h1 h2 0]
    rw [show (0 + v) = v from by omega]
  refine ⟨hrc, ?_, cell_set_zero 0⟩
  rw [← run_count_fst (v + 3 * v) (State.initState (get_instructions (List.replicate v 43 ++ [91, 45, 93])) []) 0, hrc]
  rfl

theorem C5_clear_loop_witness :
    run_count (2 + 3 * 2) (State.initState (get_instructions (List.replicate 2 43 ++ [91, 45, 93])) []) 0 =
      some ((clearLoopSt 2 (2 + 3) 0 [], none), 2) :=
  (C5_clear_loop 2 (by omega) (by omega)).1

/-- C5 counterexample: for v = 257, the run of 257 ValueIncrement
instructions followed by [-] halts successfully but the ValueDecrement in
the loop body executes exactly once (the 257 increments wrap the cell to
1), not 257 times as the claim states for every v > 0. -/
theorem C5_counterexample :
    run_count 260 (State.initState (get_instructions (List.replicate 257 43 ++ [91, 45, 93])) []) 0 =
      some ((clearLoopSt 257 260 0 [], none), 1) ∧
    (1 : Nat) ≠ 257 := by
  refine ⟨?_, by decide⟩
  have hv : (257 : Nat) + 3 < U64 := by unfold U64; norm_num
  rw [initState_clearLoop 257,
      show (260 : Nat) = 257 + 3 from rfl,
      show clearLoopSt 257 0 0 [] = clearLoopSt 257 0 (0 % 256) [] from rfl,
      clearLoop_walk 257 hv 257 0 (by omega) 3 0]
  have hiter := clearLoop_iter 257 hv 1 (by omega) (by omega) 0
  norm_num at hiter ⊢
  exact hiter
